import Mathlib

/-!
Verification of the msgspec→pydantic type-graph translator (`src/plugin.py`).

The embedding models the Python type expressions the plugin inspects, the
translator's namespace cache (`MsgspecPlugin._struct_namespace_map`, an
insertion-ordered association list, like a Python `dict`), and the plugin's
methods as pure functions.  Struct classes are modelled as identifiers
(`StructId`) resolved through an environment `Env`, mirroring Python's class
references; two distinct classes may share a `__name__`.  Recursion in
`to_pydantic_model_class` is bounded in Python by cache growth; the embedding
makes the bound explicit with a fuel parameter and proves fuel sufficiency for
finite struct graphs.
-/

namespace StarliteMsgspec

/-- Identity of a struct class object (Python object identity, not its name). -/
abbrev StructId := Nat

/-- An `__origin__` tag of a parameterized generic alias.  `TYPE_CONSTRUCTOR_MAP`
in the source maps the class objects `dict`, `list`, `set`; any other origin
(e.g. `tuple`) is represented by `cother`. -/
inductive Ctor where
  | cdict
  | clist
  | cset
  | cother (n : String)
deriving DecidableEq, Repr

/-- A Python literal value usable as a field default. -/
inductive PyLit where
  | pynone
  | pyint (n : Int)
  | pystr (s : String)
  | pybool (b : Bool)
deriving DecidableEq, Repr

/-- A msgspec field default: either the `NODEFAULT` sentinel or a value
(which may itself be `None` — the sentinel is distinct from every value). -/
inductive MDefault where
  | nodefault
  | val (v : PyLit)
deriving DecidableEq, Repr

/-- A msgspec field default factory: `NODEFAULT` or an (opaque) callable. -/
inductive MFactory where
  | nodefault
  | factory (i : Nat)
deriving DecidableEq, Repr

/-- A Python type expression as inspected by the plugin:
* `plain n` — an opaque leaf type (no `__origin__`, class not `UnionType`);
* `noneType` — the class `None.__class__` (`NoneType`);
* `structT i` — a struct class (a class with `issubclass(·, Struct)`);
* `generic c args` — a parameterized alias with `__origin__ = c` and `__args__`;
* `unionT args` — a PEP-604 union: `__class__ is UnionType`, with `__args__`. -/
inductive PyType where
  | plain (n : String)
  | noneType
  | structT (i : StructId)
  | generic (c : Ctor) (args : List PyType)
  | unionT (args : List PyType)
deriving Repr

/-- A msgspec struct field descriptor (`msgspec.structs.FieldInfo`). -/
structure MField where
  fname : String
  ftype : PyType
  fdefault : MDefault
  fdefault_factory : MFactory
  fencode_name : Option String
deriving Repr

/-- A struct class definition: its `__name__` and ordered field descriptors. -/
structure StructDef where
  sname : String
  sfields : List MField
deriving Repr

/-- The environment resolving struct class identities to their definitions. -/
abbrev Env := StructId → StructDef

/-- The `__origin__` attribute, when present. -/
def pyOrigin : PyType → Option Ctor
  | .generic c _ => some c
  | _ => none

/-- Whether the expression's `__class__` is `types.UnionType`. -/
def classIsUnionType : PyType → Bool
  | .unionT _ => true
  | _ => false

/-- A value of `TYPE_CONSTRUCTOR_MAP` in the source: the target-system
constructor applied when rebuilding a composite. -/
inductive RootCtor where
  | rdict
  | rlist
  | rset
  | runion
deriving DecidableEq, Repr

/-- The `type_root` computed at line 54 of the source: `__origin__` when
present, otherwise the runtime class.  All classes other than
`types.UnionType` are collapsed into `typeClass`, since none of them is a key
of `TYPE_CONSTRUCTOR_MAP` reachable there. -/
inductive TypeRoot where
  | ctor (c : Ctor)
  | unionClass
  | typeClass
deriving DecidableEq, Repr

/-- Source line 16: `TYPE_CONSTRUCTOR_MAP: dict[type, type] = {dict: dict, list: list, set: set,
UnionType: Union}` — as a partial lookup (a missing key is Python's `KeyError`). -/
def TYPE_CONSTRUCTOR_MAP : TypeRoot → Option RootCtor
  | .ctor .cdict => some .rdict
  | .ctor .clist => some .rlist
  | .ctor .cset => some .rset
  | .ctor (.cother _) => none
  | .unionClass => some .runion
  | .typeClass => none

/-- The `type_root` of a type expression (source line 54). -/
def typeRoot : PyType → TypeRoot
  | .generic c _ => .ctor c
  | .unionT _ => .unionClass
  | _ => .typeClass

/-- A rebuilt (pydantic-side) type expression, as produced by
`get_complex_type` / the field scan:
* `ref n` — a string forward reference (a struct's `__name__`);
* `noneLit` — the literal `None` substituted for `NoneType`;
* `applyC r args` — a target constructor subscripted with arguments;
* `leaf t` — a source type object passed through verbatim. -/
inductive PdType where
  | ref (n : String)
  | noneLit
  | applyC (r : RootCtor) (args : List PdType)
  | leaf (t : PyType)
deriving Repr

/-- A `pydantic.fields.FieldInfo` as built by `generate_field_info`:
only the keyword arguments actually passed are populated. -/
structure PFieldInfo where
  palias : Option String := none
  default : Option PyLit := none
  default_factory : Option Nat := none
deriving Repr

/-- The fixed configuration profile passed to `create_model` (lines 106–115). -/
structure PConfig where
  orm_mode : Bool
  arbitrary_types_allowed : Bool
  use_enum_values : Bool
  allow_population_by_field_name : Bool
deriving DecidableEq, Repr

/-- A generated pydantic model class. -/
structure PModel where
  pname : String
  pfields : List (String × PdType × PFieldInfo)
  pconfig : PConfig
deriving Repr

/-- The namespace cache `_struct_namespace_map`: an insertion-ordered mapping
from struct `__name__` to the generated class. -/
abbrev Cache := List (String × PModel)

/-- Membership test `n in self._struct_namespace_map`. -/
def containsName (cache : Cache) (n : String) : Bool :=
  (List.lookup n cache).isSome

/-- Errors a call can surface, plus fuel exhaustion (which Python has no
analogue of: there the recursion is bounded by cache growth, proved below). -/
inductive ConvErr where
  | keyError
  | attrError
  | outOfFuel
deriving DecidableEq, Repr

end StarliteMsgspec

namespace StarliteMsgspec

/-- Constructor `MsgspecPlugin.__init__`: the cache starts empty. -/
def init_cache : Cache := []

/-- Method `handle_nested_stuct` (source lines 32–41): append `struct` to the parent's
discovery list unless its name equals the parent's name or is already cached. -/
def handle_nested_stuct (env : Env) (cache : Cache) (struct : StructId)
    (parent_name : String) (parent_nested_structs : List StructId) : List StructId :=
  let nested_struct_name := (env struct).sname
  if nested_struct_name ≠ parent_name ∧ ¬ containsName cache nested_struct_name then
    parent_nested_structs ++ [struct]
  else
    parent_nested_structs

/-- Method `is_complex_type` (line 46): `hasattr(type_, "__origin__") and
type_.__origin__ in (list, set) or type_.__class__ is UnionType`. -/
def is_complex_type (type_ : PyType) : Bool :=
  (match pyOrigin type_ with
   | some c => c = Ctor.clist ∨ c = Ctor.cset
   | none => false)
  || classIsUnionType type_

mutual

/-- Method `get_complex_type` (lines 48–69).  Returns the rebuilt expression (or the
error Python would raise) together with the updated discovery list — the list
is mutated in place in Python, so updates survive an error. -/
def get_complex_type (env : Env) (cache : Cache) (type_ : PyType)
    (parent_name : String) (parent_nested_structs : List StructId) :
    Except ConvErr PdType × List StructId :=
  match type_ with
  | .generic c args =>
    match convert_args env cache args parent_name parent_nested_structs with
    | (.error e, n2) => (.error e, n2)
    | (.ok pdargs, n2) =>
      match TYPE_CONSTRUCTOR_MAP (.ctor c) with
      | some r => (.ok (.applyC r pdargs), n2)
      | none => (.error .keyError, n2)
  | .unionT args =>
    match convert_args env cache args parent_name parent_nested_structs with
    | (.error e, n2) => (.error e, n2)
    | (.ok pdargs, n2) =>
      match TYPE_CONSTRUCTOR_MAP .unionClass with
      | some r => (.ok (.applyC r pdargs), n2)
      | none => (.error .keyError, n2)
  | _ => (.error .attrError, parent_nested_structs)
termination_by sizeOf type_

/-- The `for t in type_.__args__` loop of `get_complex_type` (lines 56–68). -/
def convert_args (env : Env) (cache : Cache) (args : List PyType)
    (parent_name : String) (parent_nested_structs : List StructId) :
    Except ConvErr (List PdType) × List StructId :=
  match args with
  | [] => (.ok [], parent_nested_structs)
  | t :: ts =>
    match t with
    | .structT i =>
      let n2 := handle_nested_stuct env cache i parent_name parent_nested_structs
      match convert_args env cache ts parent_name n2 with
      | (.ok rest, n3) => (.ok (.ref (env i).sname :: rest), n3)
      | (.error e, n3) => (.error e, n3)
    | .noneType =>
      match convert_args env cache ts parent_name parent_nested_structs with
      | (.ok rest, n3) => (.ok (.noneLit :: rest), n3)
      | (.error e, n3) => (.error e, n3)
    | t2 =>
      if is_complex_type t2 then
        match get_complex_type env cache t2 parent_name parent_nested_structs with
        | (.error e, n2) => (.error e, n2)
        | (.ok pd, n2) =>
          match convert_args env cache ts parent_name n2 with
          | (.ok rest, n3) => (.ok (pd :: rest), n3)
          | (.error e, n3) => (.error e, n3)
      else
        match convert_args env cache ts parent_name parent_nested_structs with
        | (.ok rest, n3) => (.ok (.leaf t2 :: rest), n3)
        | (.error e, n3) => (.error e, n3)
termination_by sizeOf args

end

/-- Method `generate_field_info` (lines 71–82). -/
def generate_field_info (field : MField) : PFieldInfo :=
  { palias := field.fencode_name
    default := match field.fdefault with
      | .nodefault => none
      | .val v => some v
    default_factory := match field.fdefault_factory with
      | .nodefault => none
      | .factory i => some i }

/-- The fixed `Config` built at lines 106–115. -/
def plugin_config : PConfig :=
  { orm_mode := true
    arbitrary_types_allowed := true
    use_enum_values := true
    allow_population_by_field_name := true }

/-- Collaborator `pydantic.create_model` as consumed here: a name, the fixed config and
ordered field definitions. -/
def create_model (name : String)
    (field_definitions : List (String × PdType × PFieldInfo)) : PModel :=
  { pname := name, pfields := field_definitions, pconfig := plugin_config }

/-- The `for field in fields(model_class)` scan of `to_pydantic_model_class`
(lines 89–103): builds the field definitions and the discovery list. -/
def build_fields (env : Env) (cache : Cache) (fs : List MField)
    (parent_name : String) (nested : List StructId) :
    Except ConvErr (List (String × PdType × PFieldInfo)) × List StructId :=
  match fs with
  | [] => (.ok [], nested)
  | field :: rest =>
    match field.ftype with
    | .structT i =>
      let n2 := handle_nested_stuct env cache i parent_name nested
      match build_fields env cache rest parent_name n2 with
      | (.ok fds, n3) =>
        (.ok ((field.fname, PdType.ref (env i).sname, generate_field_info field) :: fds), n3)
      | (.error e, n3) => (.error e, n3)
    | t =>
      if is_complex_type t then
        match get_complex_type env cache t parent_name nested with
        | (.error e, n2) => (.error e, n2)
        | (.ok pd, n2) =>
          match build_fields env cache rest parent_name n2 with
          | (.ok fds, n3) =>
            (.ok ((field.fname, pd, generate_field_info field) :: fds), n3)
          | (.error e, n3) => (.error e, n3)
      else
        match build_fields env cache rest parent_name nested with
        | (.ok fds, n3) =>
          (.ok ((field.fname, PdType.leaf t, generate_field_info field) :: fds), n3)
        | (.error e, n3) => (.error e, n3)

/-- The `for nested_struct in nested_structs` loop (lines 118–119),
parameterized by the recursive conversion at the remaining fuel. -/
def convert_nested (f : StructId → Cache → Except ConvErr PModel × Cache) :
    List StructId → Cache → Except ConvErr Unit × Cache
  | [], cache => (.ok (), cache)
  | s :: rest, cache =>
    match f s cache with
    | (.error e, c2) => (.error e, c2)
    | (.ok _, c2) => convert_nested f rest c2

/-- Method `to_pydantic_model_class` (lines 84–122).  The fuel argument bounds the
recursion depth; Python needs no fuel because the cache check at line 86 bounds
the recursion, which the fuel-sufficiency theorems below make precise.
`update_forward_refs` (line 121) mutates the returned class in place, resolving
string references against the whole cache; in this pure model the cache itself
is the resolution namespace (`resolve_forward_ref`). -/
def to_pydantic_model_class (env : Env) : Nat → StructId → Cache →
    Except ConvErr PModel × Cache
  | 0, _, cache => (.error .outOfFuel, cache)
  | fuel + 1, model_class, cache =>
    let struct_name := (env model_class).sname
    match List.lookup struct_name cache with
    | some model => (.ok model, cache)
    | none =>
      match build_fields env cache (env model_class).sfields struct_name [] with
      | (.error e, _) => (.error e, cache)
      | (.ok field_definitions, nested_structs) =>
        let cache1 := cache ++ [(struct_name, create_model struct_name field_definitions)]
        match convert_nested (to_pydantic_model_class env fuel) nested_structs cache1 with
        | (.error e, c2) => (.error e, c2)
        | (.ok _, c2) =>
          match List.lookup struct_name c2 with
          | some m => (.ok m, c2)
          | none => (.error .keyError, c2)

/-- The resolution `update_forward_refs(**self._struct_namespace_map)` applies
to a string forward reference: look the name up in the cache. -/
def resolve_forward_ref (cache : Cache) (n : String) : Option PModel :=
  List.lookup n cache

/-! ### Derived notions used by the statements -/

/-- The cache's key list (struct names, in insertion order). -/
def keysOf (cache : Cache) : List String := cache.map Prod.fst

/-- The condition under which `handle_nested_stuct` appends a struct. -/
def nestPred (env : Env) (cache : Cache) (parent_name : String) (k : StructId) : Bool :=
  ((env k).sname != parent_name) && !containsName cache (env k).sname

mutual

/-- The struct classes the translator discovers inside one type expression
appearing in argument/field position: a direct struct reference, or any
struct reference nested inside `list`/`set`/union composites (the only
composites the traversal enters). -/
def tyRefs : PyType → List StructId
  | .structT i => [i]
  | .generic .clist args => tyRefsList args
  | .generic .cset args => tyRefsList args
  | .unionT args => tyRefsList args
  | _ => []
termination_by t => sizeOf t

/-- Concatenation of `tyRefs` over a list of type arguments, in order. -/
def tyRefsList : List PyType → List StructId
  | [] => []
  | t :: ts => tyRefs t ++ tyRefsList ts
termination_by ts => sizeOf ts

end

/-- All struct classes discoverable from one struct's field declarations. -/
def structRefs (env : Env) (i : StructId) : List StructId :=
  (env i).sfields.flatMap (fun f => tyRefs f.ftype)

/-- Transitive reachability along discovered struct references. -/
def Reaches (env : Env) : StructId → StructId → Prop :=
  Relation.ReflTransGen (fun a b => b ∈ structRefs env a)

/-- The specification's rebuild guarantee, written from the spec's words
(§4.2): the output is structurally isomorphic to the input — the same
constructor is applied, argument order is preserved, a nested struct class
becomes its name as a string forward reference, the `None` type becomes the
literal `None`, nested sequence/set/union composites are rebuilt recursively
and every other leaf is preserved verbatim. -/
inductive Rebuilt (env : Env) : PyType → PdType → Prop where
  | structCase (i : StructId) : Rebuilt env (.structT i) (.ref (env i).sname)
  | noneCase : Rebuilt env .noneType .noneLit
  | leafCase (t : PyType) : is_complex_type t = false → (∀ i, t ≠ .structT i) →
      t ≠ .noneType → Rebuilt env t (.leaf t)
  | listCase (as : List PyType) (bs : List PdType) :
      List.Forall₂ (Rebuilt env) as bs →
      Rebuilt env (.generic .clist as) (.applyC .rlist bs)
  | setCase (as : List PyType) (bs : List PdType) :
      List.Forall₂ (Rebuilt env) as bs →
      Rebuilt env (.generic .cset as) (.applyC .rset bs)
  | unionCase (as : List PyType) (bs : List PdType) :
      List.Forall₂ (Rebuilt env) as bs →
      Rebuilt env (.unionT as) (.applyC .runion bs)

/-- What `convert_args` computes on any argument list: it always succeeds,
returns the pointwise-rebuilt arguments and appends exactly the discovered
struct references passing the `handle_nested_stuct` filter, in order. -/
def CAspec (env : Env) (cache : Cache) (p : String) (ts : List PyType) : Prop :=
  ∀ ns, ∃ bs, convert_args env cache ts p ns =
      (.ok bs, ns ++ (tyRefsList ts).filter (nestPred env cache p)) ∧
    List.Forall₂ (Rebuilt env) ts bs

/-- What `get_complex_type` computes on a composite with arguments. -/
def GCTspec (env : Env) (cache : Cache) (p : String) (t : PyType) : Prop :=
  (∀ c as, t = .generic c as → ∀ ns, ∃ bs,
      List.Forall₂ (Rebuilt env) as bs ∧
      get_complex_type env cache t p ns =
        ((TYPE_CONSTRUCTOR_MAP (.ctor c)).elim (Except.error .keyError)
            (fun r => Except.ok (.applyC r bs)),
         ns ++ (tyRefsList as).filter (nestPred env cache p))) ∧
  (∀ as, t = .unionT as → ∀ ns, ∃ bs,
      List.Forall₂ (Rebuilt env) as bs ∧
      get_complex_type env cache t p ns =
        (Except.ok (.applyC .runion bs),
         ns ++ (tyRefsList as).filter (nestPred env cache p)))

/-- How one call may change the cache: entries are only appended, only under
names absent from the cache at the moment of insertion, and key uniqueness is
preserved. -/
def CacheExt (c c2 : Cache) : Prop :=
  (∃ d, c2 = c ++ d ∧ ∀ q ∈ d, List.lookup q.1 c = none) ∧
    ((keysOf c).Nodup → (keysOf c2).Nodup)

/-- The names of a set of struct classes. -/
def namesOf (env : Env) (S : Finset StructId) : Finset String :=
  S.image (fun j => (env j).sname)

/-- An arbitrary Python value as passed to `is_plugin_supported_type`:
either a class object, carrying the names in its method-resolution order, or
a non-class value (an instance, a number, `None`, …), for which
`issubclass` raises `TypeError`. -/
inductive PyObj where
  | pyclass (mro : List String)
  | pynonclass (tag : String)
deriving DecidableEq, Repr

/-- Collaborator `issubclass(value, Struct)`: succeeds on classes (true iff the struct
base type is among the ancestors), raises `TypeError` on non-classes. -/
def issubclass_Struct : PyObj → Except String Bool
  | .pyclass mro => .ok (mro.contains "Struct")
  | .pynonclass _ => .error "TypeError"

/-- Method `is_plugin_supported_type` (source lines 25–30): the `try/except
TypeError` around `issubclass(value, Struct)`. -/
def is_plugin_supported_type (value : PyObj) : Bool :=
  match issubclass_Struct value with
  | .ok b => b
  | .error _ => false

end StarliteMsgspec

namespace StarliteMsgspec

theorem handle_nested_eq (env : Env) (cache : Cache) (i : StructId) (p : String)
    (ns : List StructId) :
    handle_nested_stuct env cache i p ns =
      ns ++ (if nestPred env cache p i then [i] else []) := by
  by_cases h1 : (env i).sname = p <;> by_cases h2 : containsName cache (env i).sname <;>
    simp [handle_nested_stuct, nestPred, h1, h2]

theorem is_complex_plain (nm : String) : is_complex_type (.plain nm) = false := rfl

theorem is_complex_noneType : is_complex_type .noneType = false := rfl

theorem is_complex_structT (i : StructId) : is_complex_type (.structT i) = false := rfl

theorem is_complex_clist (as : List PyType) :
    is_complex_type (.generic .clist as) = true := rfl

theorem is_complex_cset (as : List PyType) :
    is_complex_type (.generic .cset as) = true := rfl

theorem is_complex_cdict (as : List PyType) :
    is_complex_type (.generic .cdict as) = false := rfl

theorem is_complex_cother (nm : String) (as : List PyType) :
    is_complex_type (.generic (.cother nm) as) = false := rfl

theorem is_complex_unionT (as : List PyType) :
    is_complex_type (.unionT as) = true := rfl

theorem gct_ca_strong (env : Env) (cache : Cache) (p : String) :
    ∀ n : Nat, (∀ t : PyType, sizeOf t ≤ n → GCTspec env cache p t) ∧
      (∀ ts : List PyType, sizeOf ts ≤ n → CAspec env cache p ts) := by
  intro n
  induction n using Nat.strong_induction_on with
  | _ n ih =>
    have hca : ∀ ts : List PyType, sizeOf ts < n → CAspec env cache p ts := by
      intro ts h
      exact (ih _ h).2 ts (le_refl _)
    have hgct : ∀ t : PyType, sizeOf t < n → GCTspec env cache p t := by
      intro t h
      exact (ih _ h).1 t (le_refl _)
    constructor
    · intro t ht
      constructor
      · rintro c as rfl ns
        have has : sizeOf as < n := by
          have h1 := PyType.generic.sizeOf_spec c as
          omega
        obtain ⟨bs, hb, hfa⟩ := hca as has ns
        refine ⟨bs, hfa, ?_⟩
        simp only [get_complex_type, hb]
        cases hmap : TYPE_CONSTRUCTOR_MAP (.ctor c) <;> simp [hmap]
      · rintro as rfl ns
        have has : sizeOf as < n := by
          have h1 := PyType.unionT.sizeOf_spec as
          omega
        obtain ⟨bs, hb, hfa⟩ := hca as has ns
        refine ⟨bs, hfa, ?_⟩
        simp only [get_complex_type, hb, TYPE_CONSTRUCTOR_MAP]
    · intro ts hts
      match ts with
      | [] =>
        intro ns
        exact ⟨[], by simp [convert_args, tyRefsList], List.Forall₂.nil⟩
      | t :: rest =>
        have hsz := List.cons.sizeOf_spec t rest
        have hrest : sizeOf rest < n := by omega
        have htn : sizeOf t < n := by omega
        intro ns
        cases t with
        | structT i =>
          have hh := handle_nested_eq env cache i p ns
          by_cases hp : nestPred env cache p i = true
          · rw [if_pos hp] at hh
            obtain ⟨bs, hb, hfa⟩ := hca rest hrest (ns ++ [i])
            refine ⟨.ref (env i).sname :: bs, ?_, .cons (.structCase i) hfa⟩
            simp only [convert_args, hh, hb, tyRefsList, tyRefs]
            simp [List.filter_append, hp]
          · rw [if_neg hp] at hh
            rw [List.append_nil] at hh
            obtain ⟨bs, hb, hfa⟩ := hca rest hrest ns
            refine ⟨.ref (env i).sname :: bs, ?_, .cons (.structCase i) hfa⟩
            simp only [convert_args, hh, hb, tyRefsList, tyRefs]
            simp [List.filter_append, hp]
        | noneType =>
          obtain ⟨bs, hb, hfa⟩ := hca rest hrest ns
          refine ⟨.noneLit :: bs, ?_, .cons .noneCase hfa⟩
          simp only [convert_args, hb, tyRefsList, tyRefs]
          simp [List.filter_append]
        | plain nm =>
          obtain ⟨bs, hb, hfa⟩ := hca rest hrest ns
          refine ⟨.leaf (.plain nm) :: bs, ?_,
            .cons (.leafCase _ rfl (by simp) (by simp)) hfa⟩
          simp only [convert_args, is_complex_plain, Bool.false_eq_true, if_false, hb,
            tyRefsList, tyRefs]
          simp [List.filter_append]
        | generic c as =>
          cases c with
          | clist =>
            obtain ⟨bs1, hfa1, hgeq⟩ := (hgct _ htn).1 .clist as rfl ns
            obtain ⟨bs, hb, hfa⟩ :=
              hca rest hrest (ns ++ (tyRefsList as).filter (nestPred env cache p))
            refine ⟨.applyC .rlist bs1 :: bs, ?_, .cons (.listCase as bs1 hfa1) hfa⟩
            simp only [convert_args, is_complex_clist, if_true, hgeq,
              TYPE_CONSTRUCTOR_MAP, Option.elim, hb, tyRefsList, tyRefs]
            simp [List.filter_append]
          | cset =>
            obtain ⟨bs1, hfa1, hgeq⟩ := (hgct _ htn).1 .cset as rfl ns
            obtain ⟨bs, hb, hfa⟩ :=
              hca rest hrest (ns ++ (tyRefsList as).filter (nestPred env cache p))
            refine ⟨.applyC .rset bs1 :: bs, ?_, .cons (.setCase as bs1 hfa1) hfa⟩
            simp only [convert_args, is_complex_cset, if_true, hgeq,
              TYPE_CONSTRUCTOR_MAP, Option.elim, hb, tyRefsList, tyRefs]
            simp [List.filter_append]
          | cdict =>
            obtain ⟨bs, hb, hfa⟩ := hca rest hrest ns
            refine ⟨.leaf (.generic .cdict as) :: bs, ?_,
              .cons (.leafCase _ rfl (by simp) (by simp)) hfa⟩
            simp only [convert_args, is_complex_cdict, Bool.false_eq_true, if_false, hb,
              tyRefsList, tyRefs]
            simp [List.filter_append]
          | cother nm2 =>
            obtain ⟨bs, hb, hfa⟩ := hca rest hrest ns
            refine ⟨.leaf (.generic (.cother nm2) as) :: bs, ?_,
              .cons (.leafCase _ rfl (by simp) (by simp)) hfa⟩
            simp only [convert_args, is_complex_cother, Bool.false_eq_true, if_false, hb,
              tyRefsList, tyRefs]
            simp [List.filter_append]
        | unionT as =>
          obtain ⟨bs1, hfa1, hgeq⟩ := (hgct _ htn).2 as rfl ns
          obtain ⟨bs, hb, hfa⟩ :=
            hca rest hrest (ns ++ (tyRefsList as).filter (nestPred env cache p))
          refine ⟨.applyC .runion bs1 :: bs, ?_, .cons (.unionCase as bs1 hfa1) hfa⟩
          simp only [convert_args, is_complex_unionT, if_true, hgeq, hb, tyRefsList, tyRefs]
          simp [List.filter_append]

end StarliteMsgspec

namespace StarliteMsgspec

/-! ### Association-list lemmas for the namespace cache -/

theorem keysOf_append (c d : Cache) : keysOf (c ++ d) = keysOf c ++ keysOf d :=
  List.map_append _ c d

theorem lookup_mem_keysOf {c : Cache} {n : String} {m : PModel}
    (h : List.lookup n c = some m) : n ∈ keysOf c := by
  induction c with
  | nil => simp [List.lookup] at h
  | cons q rest ih =>
    rw [List.lookup] at h
    by_cases hq : n = q.1
    · simp [keysOf, hq]
    · have : (n == q.1) = false := beq_false_of_ne hq
      rw [this] at h
      simp only [keysOf, List.map_cons, List.mem_cons]
      exact Or.inr (ih h)

theorem mem_keysOf_lookup {c : Cache} {n : String} (h : n ∈ keysOf c) :
    ∃ m, List.lookup n c = some m := by
  induction c with
  | nil => simp [keysOf] at h
  | cons q rest ih =>
    simp only [keysOf, List.map_cons, List.mem_cons] at h
    rw [List.lookup]
    by_cases hq : n = q.1
    · rw [beq_iff_eq.mpr hq]
      exact ⟨q.2, rfl⟩
    · have : (n == q.1) = false := beq_false_of_ne hq
      rw [this]
      exact ih (h.resolve_left hq)

theorem lookup_eq_none_iff {c : Cache} {n : String} :
    List.lookup n c = none ↔ n ∉ keysOf c := by
  constructor
  · intro h hmem
    obtain ⟨m, hm⟩ := mem_keysOf_lookup hmem
    rw [h] at hm
    exact Option.noConfusion hm
  · intro h
    cases hl : List.lookup n c with
    | none => rfl
    | some m => exact absurd (lookup_mem_keysOf hl) h

theorem containsName_iff {c : Cache} {n : String} :
    containsName c n = true ↔ n ∈ keysOf c := by
  unfold containsName
  rw [Option.isSome_iff_exists]
  constructor
  · rintro ⟨m, hm⟩
    exact lookup_mem_keysOf hm
  · exact mem_keysOf_lookup

theorem lookup_append_some {c d : Cache} {n : String} {m : PModel}
    (h : List.lookup n c = some m) : List.lookup n (c ++ d) = some m := by
  induction c with
  | nil => simp [List.lookup] at h
  | cons q rest ih =>
    rw [List.cons_append]
    rw [List.lookup] at h ⊢
    cases hq : (n == q.1) with
    | true =>
      rw [hq] at h
      exact h
    | false =>
      rw [hq] at h
      exact ih h

theorem lookup_append_none {c d : Cache} {n : String}
    (h : List.lookup n (c ++ d) = none) : List.lookup n c = none := by
  rw [lookup_eq_none_iff] at h ⊢
  intro hmem
  exact h (by rw [keysOf_append]; exact List.mem_append_left _ hmem)

theorem CacheExt.refl (c : Cache) : CacheExt c c :=
  ⟨⟨[], by simp, by simp⟩, id⟩

theorem CacheExt.trans {c c2 c3 : Cache} (h1 : CacheExt c c2) (h2 : CacheExt c2 c3) :
    CacheExt c c3 := by
  obtain ⟨⟨d1, rfl, hd1⟩, hn1⟩ := h1
  obtain ⟨⟨d2, rfl, hd2⟩, hn2⟩ := h2
  refine ⟨⟨d1 ++ d2, by simp, ?_⟩, fun h => hn2 (hn1 h)⟩
  intro q hq
  rcases List.mem_append.mp hq with h | h
  · exact hd1 q h
  · exact lookup_append_none (hd2 q h)

theorem CacheExt.insert {c : Cache} {n : String} {m : PModel}
    (h : List.lookup n c = none) : CacheExt c (c ++ [(n, m)]) := by
  refine ⟨⟨[(n, m)], rfl, ?_⟩, ?_⟩
  · intro q hq
    rw [List.mem_singleton] at hq
    subst hq
    exact h
  · intro hnd
    rw [keysOf_append]
    simp only [keysOf, List.map_cons, List.map_nil]
    rw [List.nodup_append]
    refine ⟨hnd, List.nodup_singleton n, ?_⟩
    intro a ha hb
    rw [List.mem_singleton] at hb
    subst hb
    exact (lookup_eq_none_iff.mp h) ha

theorem CacheExt.keys_subset {c c2 : Cache} (h : CacheExt c c2) :
    ∀ n ∈ keysOf c, n ∈ keysOf c2 := by
  obtain ⟨⟨d, rfl, _⟩, _⟩ := h
  intro n hn
  rw [keysOf_append]
  exact List.mem_append_left _ hn

theorem CacheExt.lookup_stable {c c2 : Cache} (h : CacheExt c c2) {n : String}
    {m : PModel} (hl : List.lookup n c = some m) : List.lookup n c2 = some m := by
  obtain ⟨⟨d, rfl, _⟩, _⟩ := h
  exact lookup_append_some hl

/-! ### Characterization of `get_complex_type` on complex inputs -/

theorem convert_args_spec (env : Env) (cache : Cache) (p : String) (ts : List PyType) :
    CAspec env cache p ts :=
  (gct_ca_strong env cache p (sizeOf ts)).2 ts (le_refl _)

theorem get_complex_type_spec (env : Env) (cache : Cache) (p : String) (t : PyType) :
    GCTspec env cache p t :=
  (gct_ca_strong env cache p (sizeOf t)).1 t (le_refl _)

/-- On every input `is_complex_type` accepts, `get_complex_type` succeeds,
its output satisfies the spec's rebuild guarantee, and it appends to the
discovery list exactly the discovered struct references passing the
`handle_nested_stuct` filter, in traversal order. -/
theorem get_complex_type_ok (env : Env) (cache : Cache) (p : String) {t : PyType}
    (hc : is_complex_type t = true) (ns : List StructId) :
    ∃ out, get_complex_type env cache t p ns =
      (.ok out, ns ++ (tyRefs t).filter (nestPred env cache p)) ∧ Rebuilt env t out := by
  cases t with
  | plain nm => simp [is_complex_plain] at hc
  | noneType => simp [is_complex_noneType] at hc
  | structT i => simp [is_complex_structT] at hc
  | generic c as =>
    cases c with
    | clist =>
      obtain ⟨bs, hfa, heq⟩ := (get_complex_type_spec env cache p _).1 .clist as rfl ns
      refine ⟨.applyC .rlist bs, ?_, .listCase as bs hfa⟩
      rw [heq]
      simp [TYPE_CONSTRUCTOR_MAP, tyRefs]
    | cset =>
      obtain ⟨bs, hfa, heq⟩ := (get_complex_type_spec env cache p _).1 .cset as rfl ns
      refine ⟨.applyC .rset bs, ?_, .setCase as bs hfa⟩
      rw [heq]
      simp [TYPE_CONSTRUCTOR_MAP, tyRefs]
    | cdict => simp [is_complex_cdict] at hc
    | cother nm => simp [is_complex_cother] at hc
  | unionT as =>
    obtain ⟨bs, hfa, heq⟩ := (get_complex_type_spec env cache p _).2 as rfl ns
    refine ⟨.applyC .runion bs, ?_, .unionCase as bs hfa⟩
    rw [heq]
    simp [tyRefs]

/-- The field scan always succeeds and discovers exactly the struct references
of the declared field types passing the `handle_nested_stuct` filter. -/
theorem build_fields_spec (env : Env) (cache : Cache) (p : String) :
    ∀ (fs : List MField) (ns : List StructId), ∃ defs,
      build_fields env cache fs p ns =
        (.ok defs,
         ns ++ (fs.flatMap (fun f => tyRefs f.ftype)).filter (nestPred env cache p)) := by
  intro fs
  induction fs with
  | nil => intro ns; exact ⟨[], by simp [build_fields]⟩
  | cons field rest ih =>
    intro ns
    cases hft : field.ftype with
    | structT i =>
      have hh := handle_nested_eq env cache i p ns
      by_cases hp : nestPred env cache p i = true
      · rw [if_pos hp] at hh
        obtain ⟨defs, hd⟩ := ih (ns ++ [i])
        refine ⟨(field.fname, PdType.ref (env i).sname, generate_field_info field) :: defs, ?_⟩
        simp only [build_fields, hft, hh, hd]
        simp [List.filter_append, hp, hft, tyRefs]
      · rw [if_neg hp, List.append_nil] at hh
        obtain ⟨defs, hd⟩ := ih ns
        refine ⟨(field.fname, PdType.ref (env i).sname, generate_field_info field) :: defs, ?_⟩
        simp only [build_fields, hft, hh, hd]
        simp [List.filter_append, hp, hft, tyRefs]
    | noneType =>
      obtain ⟨defs, hd⟩ := ih ns
      refine ⟨(field.fname, PdType.leaf .noneType, generate_field_info field) :: defs, ?_⟩
      simp only [build_fields, hft, is_complex_noneType, Bool.false_eq_true, if_false, hd]
      simp [List.filter_append, hft, tyRefs]
    | plain nm =>
      obtain ⟨defs, hd⟩ := ih ns
      refine ⟨(field.fname, PdType.leaf (.plain nm), generate_field_info field) :: defs, ?_⟩
      simp only [build_fields, hft, is_complex_plain, Bool.false_eq_true, if_false, hd]
      simp [List.filter_append, hft, tyRefs]
    | generic c as =>
      cases c with
      | clist =>
        obtain ⟨out, heq, _⟩ := get_complex_type_ok env cache p (is_complex_clist as) ns
        obtain ⟨defs, hd⟩ := ih (ns ++ (tyRefs (.generic .clist as)).filter (nestPred env cache p))
        refine ⟨(field.fname, out, generate_field_info field) :: defs, ?_⟩
        simp only [build_fields, hft, is_complex_clist, if_true, heq, hd]
        simp [List.filter_append, hft]
      | cset =>
        obtain ⟨out, heq, _⟩ := get_complex_type_ok env cache p (is_complex_cset as) ns
        obtain ⟨defs, hd⟩ := ih (ns ++ (tyRefs (.generic .cset as)).filter (nestPred env cache p))
        refine ⟨(field.fname, out, generate_field_info field) :: defs, ?_⟩
        simp only [build_fields, hft, is_complex_cset, if_true, heq, hd]
        simp [List.filter_append, hft]
      | cdict =>
        obtain ⟨defs, hd⟩ := ih ns
        refine ⟨(field.fname, PdType.leaf (.generic .cdict as), generate_field_info field) :: defs, ?_⟩
        simp only [build_fields, hft, is_complex_cdict, Bool.false_eq_true, if_false, hd]
        simp [List.filter_append, hft, tyRefs]
      | cother nm =>
        obtain ⟨defs, hd⟩ := ih ns
        refine ⟨(field.fname, PdType.leaf (.generic (.cother nm) as), generate_field_info field) :: defs, ?_⟩
        simp only [build_fields, hft, is_complex_cother, Bool.false_eq_true, if_false, hd]
        simp [List.filter_append, hft, tyRefs]
    | unionT as =>
      obtain ⟨out, heq, _⟩ := get_complex_type_ok env cache p (is_complex_unionT as) ns
      obtain ⟨defs, hd⟩ := ih (ns ++ (tyRefs (.unionT as)).filter (nestPred env cache p))
      refine ⟨(field.fname, out, generate_field_info field) :: defs, ?_⟩
      simp only [build_fields, hft, is_complex_unionT, if_true, heq, hd]
      simp [List.filter_append, hft]

end StarliteMsgspec

namespace StarliteMsgspec

/-- One step of the nested-struct loop preserves cache extension. -/
theorem convert_nested_ext (f : StructId → Cache → Except ConvErr PModel × Cache)
    (hf : ∀ i c, CacheExt c (f i c).2) :
    ∀ (ns : List StructId) (c : Cache), CacheExt c (convert_nested f ns c).2 := by
  intro ns
  induction ns with
  | nil => intro c; exact CacheExt.refl c
  | cons s rest ih =>
    intro c
    have h1 := hf s c
    cases hcall : f s c with
    | mk r c2 =>
      rw [hcall] at h1
      cases r with
      | error e => simpa [convert_nested, hcall] using h1
      | ok m =>
        have h2 := ih c2
        simpa [convert_nested, hcall] using h1.trans h2

/-- Conversion only ever appends fresh names to the cache:
nothing is removed, nothing is overwritten, keys stay unique. -/
theorem to_pydantic_cache_ext (env : Env) :
    ∀ (fuel : Nat) (i : StructId) (c : Cache),
      CacheExt c (to_pydantic_model_class env fuel i c).2 := by
  intro fuel
  induction fuel with
  | zero => intro i c; exact CacheExt.refl c
  | succ fuel ih =>
    intro i c
    show CacheExt c (to_pydantic_model_class env (fuel + 1) i c).2
    rw [to_pydantic_model_class]
    cases hlc : List.lookup (env i).sname c with
    | some m => exact CacheExt.refl c
    | none =>
      obtain ⟨defs, hbf⟩ := build_fields_spec env c (env i).sname (env i).sfields []
      rw [List.nil_append] at hbf
      rcases hcn : convert_nested (to_pydantic_model_class env fuel)
          (List.filter (nestPred env c (env i).sname)
            ((env i).sfields.flatMap (fun f => tyRefs f.ftype)))
          (c ++ [((env i).sname, create_model (env i).sname defs)]) with ⟨r, c2⟩
      have h2 : CacheExt (c ++ [((env i).sname, create_model (env i).sname defs)]) c2 := by
        have hx := convert_nested_ext (to_pydantic_model_class env fuel) ih
          (List.filter (nestPred env c (env i).sname)
            ((env i).sfields.flatMap (fun f => tyRefs f.ftype)))
          (c ++ [((env i).sname, create_model (env i).sname defs)])
        rw [hcn] at hx
        exact hx
      have h3 : CacheExt c c2 := (CacheExt.insert hlc).trans h2
      cases r with
      | error e =>
        simp only [hbf, hcn]
        exact h3
      | ok u =>
        simp only [hbf, hcn]
        cases hlk : List.lookup (env i).sname c2 <;> simp only [hlk] <;> exact h3

end StarliteMsgspec

namespace StarliteMsgspec

theorem keysOf_cache1 (c : Cache) (nm : String) (m : PModel) :
    keysOf (c ++ [(nm, m)]) = keysOf c ++ [nm] := by
  rw [keysOf_append]
  rfl

theorem toFinset_keysOf_cache1 (c : Cache) (nm : String) (m : PModel) :
    (keysOf (c ++ [(nm, m)])).toFinset = insert nm (keysOf c).toFinset := by
  rw [keysOf_cache1, List.toFinset_append]
  ext x
  simp [or_comm]

/-- Fuel sufficiency and discovery: on any closed finite set `S` of struct
classes, a call with enough fuel succeeds; the subject's name ends up in the
cache; and every name the call adds is the name of some struct in `S` all of
whose discovered references also have their names in the final cache. -/
theorem to_pydantic_main (env : Env) (S : Finset StructId)
    (hcl : ∀ j ∈ S, ∀ k ∈ structRefs env j, k ∈ S) :
    ∀ (fuel : Nat) (i : StructId) (c : Cache), i ∈ S →
      ((namesOf env S) \ (keysOf c).toFinset).card < fuel →
      ∃ m c2, to_pydantic_model_class env fuel i c = (.ok m, c2) ∧
        (env i).sname ∈ keysOf c2 ∧
        ∀ nm, nm ∈ keysOf c2 → nm ∉ keysOf c →
          ∃ j ∈ S, (env j).sname = nm ∧
            ∀ k ∈ structRefs env j, (env k).sname ∈ keysOf c2 := by
  intro fuel
  induction fuel with
  | zero => intro i c _ hcard; exact absurd hcard (by omega)
  | succ fuel ih =>
    intro i c hi hcard
    cases hlc : List.lookup (env i).sname c with
    | some m =>
      refine ⟨m, c, ?_, lookup_mem_keysOf hlc, ?_⟩
      · rw [to_pydantic_model_class, hlc]
      · intro nm h1 h2; exact absurd h1 h2
    | none =>
      obtain ⟨defs, hbf⟩ := build_fields_spec env c (env i).sname (env i).sfields []
      rw [List.nil_append] at hbf
      have hsr : (env i).sfields.flatMap (fun f => tyRefs f.ftype) = structRefs env i := rfl
      rw [hsr] at hbf
      have hkeys1 : keysOf (c ++ [((env i).sname, create_model (env i).sname defs)]) =
          keysOf c ++ [(env i).sname] := keysOf_cache1 c _ _
      have hcard1 : ((namesOf env S) \
          (keysOf (c ++ [((env i).sname, create_model (env i).sname defs)])).toFinset).card
            < fuel := by
        have hfin := toFinset_keysOf_cache1 c (env i).sname (create_model (env i).sname defs)
        have hmemS : (env i).sname ∈ namesOf env S := Finset.mem_image.mpr ⟨i, hi, rfl⟩
        have hnotin : (env i).sname ∉ (keysOf c).toFinset := by
          rw [List.mem_toFinset]
          exact lookup_eq_none_iff.mp hlc
        have hmemdiff : (env i).sname ∈ (namesOf env S) \ (keysOf c).toFinset :=
          Finset.mem_sdiff.mpr ⟨hmemS, hnotin⟩
        have hpos : 0 < ((namesOf env S) \ (keysOf c).toFinset).card :=
          Finset.card_pos.mpr ⟨(env i).sname, hmemdiff⟩
        rw [hfin, Finset.sdiff_insert, Finset.card_erase_of_mem hmemdiff]
        omega
      -- the nested-struct loop
      have CN : ∀ (ns : List StructId), (∀ s ∈ ns, s ∈ S) →
          ∀ (ca : Cache), ((namesOf env S) \ (keysOf ca).toFinset).card < fuel →
          ∃ c2, convert_nested (to_pydantic_model_class env fuel) ns ca = (.ok (), c2) ∧
            (∀ n ∈ keysOf ca, n ∈ keysOf c2) ∧
            (∀ s ∈ ns, (env s).sname ∈ keysOf c2) ∧
            (∀ nm, nm ∈ keysOf c2 → nm ∉ keysOf ca →
              ∃ j ∈ S, (env j).sname = nm ∧
                ∀ k ∈ structRefs env j, (env k).sname ∈ keysOf c2) := by
        intro ns
        induction ns with
        | nil =>
          intro _ ca _
          exact ⟨ca, rfl, fun n h => h, by simp, fun nm h1 h2 => absurd h1 h2⟩
        | cons s rest ihns =>
          intro hS ca hcardc
          obtain ⟨m1, cm, heq1, hname1, hnew1⟩ := ih s ca (hS s (by simp)) hcardc
          have hsub1 : ∀ n ∈ keysOf ca, n ∈ keysOf cm := by
            have hx := to_pydantic_cache_ext env fuel s ca
            rw [heq1] at hx
            exact hx.keys_subset
          have hcardm : ((namesOf env S) \ (keysOf cm).toFinset).card < fuel := by
            refine lt_of_le_of_lt (Finset.card_le_card ?_) hcardc
            refine Finset.sdiff_subset_sdiff (le_refl _) ?_
            intro n hn
            rw [List.mem_toFinset] at hn ⊢
            exact hsub1 n hn
          obtain ⟨c2, heq2, hsub2, hnames2, hnew2⟩ :=
            ihns (fun x hx => hS x (by simp [hx])) cm hcardm
          refine ⟨c2, ?_, fun n h => hsub2 n (hsub1 n h), ?_, ?_⟩
          · rw [convert_nested, heq1]
            exact heq2
          · intro x hx
            rcases List.mem_cons.mp hx with h | h
            · subst h; exact hsub2 _ hname1
            · exact hnames2 x h
          · intro nm h1 h2
            by_cases hmid : nm ∈ keysOf cm
            · obtain ⟨j, hj, hjn, hjrefs⟩ := hnew1 nm hmid h2
              exact ⟨j, hj, hjn, fun k hk => hsub2 _ (hjrefs k hk)⟩
            · exact hnew2 nm h1 hmid
      have hns_mem : ∀ s ∈ (structRefs env i).filter (nestPred env c (env i).sname), s ∈ S := by
        intro s hs
        rw [List.mem_filter] at hs
        exact hcl i hi s hs.1
      obtain ⟨c2, hcn, hsub, hnames, hnew⟩ :=
        CN ((structRefs env i).filter (nestPred env c (env i).sname)) hns_mem
          (c ++ [((env i).sname, create_model (env i).sname defs)]) hcard1
      have hnmi_c1 : (env i).sname ∈
          keysOf (c ++ [((env i).sname, create_model (env i).sname defs)]) := by
        rw [hkeys1]
        simp
      have hnmi_c2 : (env i).sname ∈ keysOf c2 := hsub _ hnmi_c1
      obtain ⟨m2, hm2⟩ := mem_keysOf_lookup hnmi_c2
      have hrefs_i : ∀ k ∈ structRefs env i, (env k).sname ∈ keysOf c2 := by
        intro k hk
        by_cases hk1 : (env k).sname = (env i).sname
        · rw [hk1]; exact hnmi_c2
        · by_cases hk2 : containsName c (env k).sname = true
          · refine hsub _ ?_
            rw [hkeys1]
            exact List.mem_append_left _ (containsName_iff.mp hk2)
          · have hpred : nestPred env c (env i).sname k = true := by
              simp [nestPred, hk1, hk2]
            exact hnames k (List.mem_filter.mpr ⟨hk, hpred⟩)
      refine ⟨m2, c2, ?_, hnmi_c2, ?_⟩
      · rw [to_pydantic_model_class]
        simp only [hlc, hbf, hcn, hm2]
      · intro nm h1 h2
        by_cases hmid : nm ∈ keysOf (c ++ [((env i).sname, create_model (env i).sname defs)])
        · have hnmeq : nm = (env i).sname := by
            rw [hkeys1] at hmid
            rcases List.mem_append.mp hmid with h | h
            · exact absurd h h2
            · simpa using h
          subst hnmeq
          exact ⟨i, hi, rfl, hrefs_i⟩
        · obtain ⟨j, hj, hjn, hjrefs⟩ := hnew nm h1 hmid
          exact ⟨j, hj, hjn, hjrefs⟩

end StarliteMsgspec

namespace StarliteMsgspec

/-- A successful conversion returns exactly the cache entry under the
struct's name (source line 120: `model = self._struct_namespace_map[struct_name]`). -/
theorem to_pydantic_returns_cache_entry (env : Env) {fuel : Nat} {i : StructId}
    {c : Cache} {m : PModel} {c2 : Cache}
    (h : to_pydantic_model_class env fuel i c = (.ok m, c2)) :
    List.lookup (env i).sname c2 = some m := by
  match fuel with
  | 0 => simp [to_pydantic_model_class] at h
  | fuel + 1 =>
    rw [to_pydantic_model_class] at h
    cases hlc : List.lookup (env i).sname c with
    | some model =>
      rw [hlc] at h
      simp only [Prod.mk.injEq, Except.ok.injEq] at h
      rw [← h.2, hlc, h.1]
    | none =>
      rw [hlc] at h
      rcases hbf : build_fields env c (env i).sfields (env i).sname [] with ⟨r, ns⟩
      cases r with
      | error e => simp [hbf] at h
      | ok defs =>
        simp only [hbf] at h
        rcases hcn : convert_nested (to_pydantic_model_class env fuel) ns
            (c ++ [((env i).sname, create_model (env i).sname defs)]) with ⟨r2, cf⟩
        cases r2 with
        | error e => simp [hcn] at h
        | ok u =>
          simp only [hcn] at h
          cases hlk : List.lookup (env i).sname cf with
          | none => simp [hlk] at h
          | some mm =>
            simp only [hlk, Prod.mk.injEq, Except.ok.injEq] at h
            rw [← h.2, hlk, h.1]

/-- A cache hit returns the stored class unchanged (source lines 86, 120–122). -/
theorem to_pydantic_cache_hit (env : Env) {fuel : Nat} (hf : 0 < fuel)
    {i : StructId} {c : Cache} {m : PModel}
    (h : List.lookup (env i).sname c = some m) :
    to_pydantic_model_class env fuel i c = (.ok m, c) := by
  match fuel, hf with
  | fuel + 1, _ =>
    rw [to_pydantic_model_class, h]

/-- C4.  Forward conversion is idempotent with object identity: after a
successful conversion of a struct class producing class `m` and cache `c2`,
a second call on the same translator state performs a cache hit and returns
the very cache entry `m` again, leaving the cache untouched; the returned
class is the one stored in the namespace cache, not a copy. -/
theorem claim_C4_idempotent_identity (env : Env) (fuel fuel2 : Nat) (i : StructId)
    (c : Cache) (m : PModel) (c2 : Cache)
    (h : to_pydantic_model_class env fuel i c = (.ok m, c2)) (hf2 : 0 < fuel2) :
    to_pydantic_model_class env fuel2 i c2 = (.ok m, c2) ∧
      List.lookup (env i).sname c2 = some m := by
  have hl := to_pydantic_returns_cache_entry env h
  exact ⟨to_pydantic_cache_hit env hf2 hl, hl⟩

/-- Witness for C4 at a concrete struct. -/
theorem claim_C4_witness :
    to_pydantic_model_class (fun _ => ⟨"A", []⟩) 1 0
        [("A", create_model "A" [])] =
      (.ok (create_model "A" []), [("A", create_model "A" [])]) ∧
      List.lookup "A" [("A", create_model "A" [])] = some (create_model "A" []) := by
  have h0 : to_pydantic_model_class (fun _ => ⟨"A", []⟩) 1 0 [] =
      (.ok (create_model "A" []), [("A", create_model "A" [])]) := by rfl
  exact claim_C4_idempotent_identity (fun _ => ⟨"A", []⟩) 1 1 0 [] (create_model "A" [])
    [("A", create_model "A" [])] h0 (by decide)

/-- C10.  Memoization is keyed by class name, not class identity: converting
any struct class whose name is already a key of the cache returns the class
stored for that name, unchanged cache — regardless of the environment used
for the second call, so the second struct's field descriptors are never
inspected. -/
theorem claim_C10_memoization_by_name (env env2 : Env) (fuel fuel2 : Nat)
    (i1 i2 : StructId) (c : Cache) (m : PModel) (c2 : Cache)
    (h1 : to_pydantic_model_class env fuel i1 c = (.ok m, c2))
    (hname : (env2 i2).sname = (env i1).sname) (hf2 : 0 < fuel2) :
    to_pydantic_model_class env2 fuel2 i2 c2 = (.ok m, c2) := by
  have hl := to_pydantic_returns_cache_entry env h1
  exact to_pydantic_cache_hit env2 hf2 (by rw [hname]; exact hl)

/-- Witness for C10: two distinct struct classes (ids 0 and 1) share the name
"A" but have different fields; converting the second returns the class
generated for the first. -/
theorem claim_C10_witness :
    to_pydantic_model_class
        (fun j => if j = 0 then ⟨"A", []⟩
                  else ⟨"A", [⟨"x", .plain "int", .nodefault, .nodefault, none⟩]⟩)
        1 1 [("A", create_model "A" [])] =
      (.ok (create_model "A" []), [("A", create_model "A" [])]) := by
  have h0 : to_pydantic_model_class
      (fun j => if j = 0 then ⟨"A", []⟩
                else ⟨"A", [⟨"x", .plain "int", .nodefault, .nodefault, none⟩]⟩)
      1 0 [] = (.ok (create_model "A" []), [("A", create_model "A" [])]) := by rfl
  exact claim_C10_memoization_by_name _ _ 1 1 0 1 [] (create_model "A" [])
    [("A", create_model "A" [])] h0 (by rfl) (by decide)

/-- C5.  The namespace cache lifecycle invariant: it is created empty at
construction; across every operation entries are only appended, each under a
name that was absent when it was inserted; existing entries are never removed
and never overwritten (lookups of previously present names are stable); and
key uniqueness is preserved, so the cache holds at most one generated class
per struct name. -/
theorem claim_C5_cache_invariant :
    init_cache = ([] : Cache) ∧
    ∀ (env : Env) (fuel : Nat) (i : StructId) (c : Cache),
      (∃ d, (to_pydantic_model_class env fuel i c).2 = c ++ d ∧
          ∀ q ∈ d, List.lookup q.1 c = none) ∧
      (∀ n mm, List.lookup n c = some mm →
          List.lookup n (to_pydantic_model_class env fuel i c).2 = some mm) ∧
      ((keysOf c).Nodup → (keysOf (to_pydantic_model_class env fuel i c).2).Nodup) := by
  refine ⟨rfl, ?_⟩
  intro env fuel i c
  have hext := to_pydantic_cache_ext env fuel i c
  exact ⟨hext.1, fun n mm h => hext.lookup_stable h, hext.2⟩

/-- Witness for C5 at a concrete conversion (the inner lifecycle statement
has implications as hypotheses; instantiate and discharge them concretely). -/
theorem claim_C5_witness :
    (∃ d, (to_pydantic_model_class (fun _ => ⟨"A", []⟩) 1 0 []).2 = [] ++ d ∧
        ∀ q ∈ d, List.lookup q.1 ([] : Cache) = none) ∧
      (keysOf (to_pydantic_model_class (fun _ => ⟨"A", []⟩) 1 0 []).2).Nodup := by
  refine ⟨(claim_C5_cache_invariant.2 (fun _ => ⟨"A", []⟩) 1 0 []).1, ?_⟩
  exact (claim_C5_cache_invariant.2 (fun _ => ⟨"A", []⟩) 1 0 []).2.2 (by simp [keysOf])

end StarliteMsgspec

namespace StarliteMsgspec

/-- C2.  For every composite type expression (`list`/`set` generic alias or
union) accepted by `is_complex_type`, `get_complex_type` succeeds and the
returned expression is structurally isomorphic to the input in the sense of
`Rebuilt`: the same constructor is applied (sequence→sequence, set→set,
union→union), argument order is preserved exactly, a nested struct class
argument becomes its name as a string forward reference, the `None` type is
substituted by the literal `None`, nested composites are rebuilt recursively,
and every other leaf type is preserved verbatim. -/
theorem claim_C2_rebuild_isomorphism (env : Env) (cache : Cache) (t : PyType)
    (p : String) (ns : List StructId) (hc : is_complex_type t = true) :
    ∃ out, (get_complex_type env cache t p ns).1 = .ok out ∧ Rebuilt env t out := by
  obtain ⟨out, heq, hr⟩ := get_complex_type_ok env cache p hc ns
  exact ⟨out, by rw [heq], hr⟩

/-- Witness for C2 at the concrete composite `str | NestedStruct | None`. -/
theorem claim_C2_witness :
    ∃ out, (get_complex_type (fun _ => ⟨"B", []⟩) []
        (.unionT [.plain "str", .structT 1, .noneType]) "A" []).1 = .ok out ∧
      Rebuilt (fun _ => ⟨"B", []⟩) (.unionT [.plain "str", .structT 1, .noneType]) out :=
  claim_C2_rebuild_isomorphism (fun _ => ⟨"B", []⟩) []
    (.unionT [.plain "str", .structT 1, .noneType]) "A" [] rfl

/-- C6.  `is_complex_type` returns true exactly on `list`/`set`-origin
generic aliases and on union-type expressions; it returns false on plain
types, on the `None` type, on nested struct classes, on `dict`-origin or
other-origin aliases, and on every expression lacking an `__origin__`
attribute; being a total function of the expression it never raises and has
no side effects. -/
theorem claim_C6_is_complex_type_spec (t : PyType) :
    (is_complex_type t = true ↔
      (∃ as, t = .generic .clist as) ∨ (∃ as, t = .generic .cset as) ∨
        (∃ as, t = .unionT as)) ∧
    (∀ nm, t = .plain nm → is_complex_type t = false) ∧
    (∀ i, t = .structT i → is_complex_type t = false) ∧
    (∀ as, t = .generic .cdict as → is_complex_type t = false) ∧
    (∀ nm as, t = .generic (.cother nm) as → is_complex_type t = false) ∧
    (t = .noneType → is_complex_type t = false) := by
  refine ⟨?_, ?_, ?_, ?_, ?_, ?_⟩
  · constructor
    · intro h
      cases t with
      | generic c as =>
        cases c with
        | clist => exact Or.inl ⟨as, rfl⟩
        | cset => exact Or.inr (Or.inl ⟨as, rfl⟩)
        | cdict => simp [is_complex_cdict] at h
        | cother nm => simp [is_complex_cother] at h
      | unionT as => exact Or.inr (Or.inr ⟨as, rfl⟩)
      | plain nm => simp [is_complex_plain] at h
      | noneType => simp [is_complex_noneType] at h
      | structT i => simp [is_complex_structT] at h
    · rintro (⟨as, rfl⟩ | ⟨as, rfl⟩ | ⟨as, rfl⟩)
      · exact is_complex_clist as
      · exact is_complex_cset as
      · exact is_complex_unionT as
  · rintro nm rfl; exact is_complex_plain nm
  · rintro i rfl; exact is_complex_structT i
  · rintro as rfl; exact is_complex_cdict as
  · rintro nm as rfl; exact is_complex_cother nm as
  · rintro rfl; exact is_complex_noneType

/-- Witness for C6 at concrete expressions. -/
theorem claim_C6_witness :
    is_complex_type (.generic .clist [.plain "int"]) = true ∧
      is_complex_type (.plain "int") = false ∧
      is_complex_type (.structT 0) = false := by
  refine ⟨?_, ?_, ?_⟩
  · exact (claim_C6_is_complex_type_spec (.generic .clist [.plain "int"])).1.mpr
      (Or.inl ⟨[.plain "int"], rfl⟩)
  · exact (claim_C6_is_complex_type_spec (.plain "int")).2.1 "int" rfl
  · exact (claim_C6_is_complex_type_spec (.structT 0)).2.2.1 0 rfl

/-- C7.  Field-metadata translation carries over an explicit default exactly
when one is present — the `NODEFAULT` sentinel is distinct from every value,
including `None` and `0` — and carries over a default factory exactly when
one is present; in particular a field with explicit default `0` translates to
a field whose metadata records default `0`, not to a field without a
default. -/
theorem claim_C7_default_preservation (field : MField) :
    ((generate_field_info field).default = none ↔ field.fdefault = .nodefault) ∧
    (∀ v, field.fdefault = .val v → (generate_field_info field).default = some v) ∧
    ((generate_field_info field).default_factory = none ↔
      field.fdefault_factory = .nodefault) ∧
    (∀ j, field.fdefault_factory = .factory j →
      (generate_field_info field).default_factory = some j) ∧
    (field.fdefault = .val (.pyint 0) →
      (generate_field_info field).default = some (.pyint 0)) := by
  refine ⟨?_, ?_, ?_, ?_, ?_⟩
  · cases h : field.fdefault <;> simp [generate_field_info, h]
  · rintro v h; simp [generate_field_info, h]
  · cases h : field.fdefault_factory <;> simp [generate_field_info, h]
  · rintro j h; simp [generate_field_info, h]
  · rintro h; simp [generate_field_info, h]

/-- Witness for C7: a field with explicit default `0` and no factory. -/
theorem claim_C7_witness :
    (generate_field_info ⟨"x", .plain "int", .val (.pyint 0), .nodefault, none⟩).default =
      some (.pyint 0) :=
  (claim_C7_default_preservation ⟨"x", .plain "int", .val (.pyint 0), .nodefault, none⟩).2.1
    (.pyint 0) rfl

/-- C8, counterexample.  The claim says every composite whose constructor is
not an ordered sequence, set or union fails with a key-not-found error; but
`dict` is a key of `TYPE_CONSTRUCTOR_MAP`, so a `dict`-origin composite —
whose constructor is none of sequence/set/union — is rebuilt successfully
rather than failing. -/
theorem claim_C8_counterexample :
    (get_complex_type (fun _ => ⟨"X", []⟩) []
        (.generic .cdict [.plain "str", .plain "int"]) "P" []).1 =
      .ok (.applyC .rdict [.leaf (.plain "str"), .leaf (.plain "int")]) ∧
    ∀ e, (get_complex_type (fun _ => ⟨"X", []⟩) []
        (.generic .cdict [.plain "str", .plain "int"]) "P" []).1 ≠ .error e := by
  have h : (get_complex_type (fun _ => ⟨"X", []⟩) []
      (.generic .cdict [.plain "str", .plain "int"]) "P" []).1 =
      .ok (.applyC .rdict [.leaf (.plain "str"), .leaf (.plain "int")]) := by
    simp [get_complex_type, convert_args, TYPE_CONSTRUCTOR_MAP, is_complex_plain]
  exact ⟨h, fun e => by rw [h]; exact fun hx => Except.noConfusion hx⟩

/-- C8, amended.  For every composite type expression whose constructor is
not a key of `TYPE_CONSTRUCTOR_MAP` (which maps `dict`, `list`, `set` and the
union type), `get_complex_type` fails with a key-not-found error, surfaced to
the caller and never swallowed.  (`dict`-origin composites, although neither
sequence nor set nor union, are in the map and succeed.) -/
theorem claim_C8_amended_unknown_constructor (env : Env) (cache : Cache)
    (nm : String) (as : List PyType) (p : String) (ns : List StructId) :
    TYPE_CONSTRUCTOR_MAP (typeRoot (.generic (.cother nm) as)) = none ∧
    (get_complex_type env cache (.generic (.cother nm) as) p ns).1 =
      .error .keyError := by
  refine ⟨rfl, ?_⟩
  obtain ⟨bs, _, heq⟩ :=
    (get_complex_type_spec env cache p (.generic (.cother nm) as)).1 (.cother nm) as rfl ns
  rw [heq]
  rfl

end StarliteMsgspec

namespace StarliteMsgspec

/-- C9.  `is_plugin_supported_type` returns true iff the value is a class
that is a subtype of the struct base type; for every non-class value — any
value on which the subclass check raises — it returns false rather than
propagating the failure; being a total Boolean function it never raises. -/
theorem claim_C9_capability_check (v : PyObj) :
    (is_plugin_supported_type v = true ↔
      ∃ mro, v = .pyclass mro ∧ "Struct" ∈ mro) ∧
    (∀ e, issubclass_Struct v = .error e → is_plugin_supported_type v = false) := by
  constructor
  · constructor
    · intro h
      cases v with
      | pyclass mro =>
        refine ⟨mro, rfl, ?_⟩
        simpa [is_plugin_supported_type, issubclass_Struct] using h
      | pynonclass tag => simp [is_plugin_supported_type, issubclass_Struct] at h
    · rintro ⟨mro, rfl, hmem⟩
      simpa [is_plugin_supported_type, issubclass_Struct] using hmem
  · intro e he
    cases v with
    | pyclass mro => simp [issubclass_Struct] at he
    | pynonclass tag => rfl

/-- Witness for C9: a non-class value yields false (not an error); a struct
subclass yields true. -/
theorem claim_C9_witness :
    is_plugin_supported_type (.pynonclass "42") = false ∧
      is_plugin_supported_type (.pyclass ["Pet", "Struct", "object"]) = true := by
  constructor
  · exact (claim_C9_capability_check (.pynonclass "42")).2 "TypeError" rfl
  · exact (claim_C9_capability_check (.pyclass ["Pet", "Struct", "object"])).1.mpr
      ⟨["Pet", "Struct", "object"], rfl, by simp⟩

end StarliteMsgspec

namespace StarliteMsgspec

/-- C1.  Nested discovery completeness: for a struct class whose fields
reference the structs of `S` (the reachable closure of the top-level class,
with pairwise distinct names), one top-level conversion from an empty cache
succeeds and leaves the cache with exactly one entry per distinct struct
name — the top-level class plus the `N = (S.erase i).card` distinct nested
structs — with no duplicate entries. -/
theorem claim_C1_nested_discovery (env : Env) (S : Finset StructId) (i : StructId)
    (fuel : Nat) (hi : i ∈ S)
    (hcl : ∀ j ∈ S, ∀ k ∈ structRefs env j, k ∈ S)
    (hre : ∀ j ∈ S, Reaches env i j)
    (hinj : ∀ j ∈ S, ∀ k ∈ S, (env j).sname = (env k).sname → j = k)
    (hfuel : S.card < fuel) :
    ∃ m c2, to_pydantic_model_class env fuel i [] = (.ok m, c2) ∧
      (keysOf c2).Nodup ∧
      (∀ nm, nm ∈ keysOf c2 ↔ nm ∈ namesOf env S) ∧
      c2.length = (S.erase i).card + 1 := by
  have hcard0 : ((namesOf env S) \ (keysOf ([] : Cache)).toFinset).card < fuel := by
    have h1 : (keysOf ([] : Cache)).toFinset = ∅ := rfl
    rw [h1, Finset.sdiff_empty]
    exact lt_of_le_of_lt Finset.card_image_le hfuel
  obtain ⟨m, c2, heq, hmem, hnew⟩ := to_pydantic_main env S hcl fuel i [] hi hcard0
  have hnodup : (keysOf c2).Nodup := by
    have hext := to_pydantic_cache_ext env fuel i []
    rw [heq] at hext
    exact hext.2 (by simp [keysOf])
  have hup : ∀ nm, nm ∈ keysOf c2 → nm ∈ namesOf env S := by
    intro nm h
    obtain ⟨j, hj, hjn, _⟩ := hnew nm h (by simp [keysOf])
    exact Finset.mem_image.mpr ⟨j, hj, hjn⟩
  have hreach_mem : ∀ j, Reaches env i j → j ∈ S := by
    intro j hr
    induction hr with
    | refl => exact hi
    | tail h1 h2 ihj => exact hcl _ ihj _ h2
  have hdown : ∀ j, j ∈ S → (env j).sname ∈ keysOf c2 := by
    intro j hj
    have hr := hre j hj
    clear hj
    induction hr with
    | refl => exact hmem
    | @tail b c' h1 h2 ihk =>
      have hbS : b ∈ S := hreach_mem b h1
      obtain ⟨j2, hj2S, hj2n, hj2refs⟩ := hnew _ ihk (by simp [keysOf])
      have hj2b : j2 = b := hinj j2 hj2S b hbS hj2n
      subst hj2b
      exact hj2refs c' h2
  have hiff : ∀ nm, nm ∈ keysOf c2 ↔ nm ∈ namesOf env S := by
    intro nm
    constructor
    · exact hup nm
    · intro h
      obtain ⟨j, hj, rfl⟩ := Finset.mem_image.mp h
      exact hdown j hj
  refine ⟨m, c2, heq, hnodup, hiff, ?_⟩
  have h1 : c2.length = (keysOf c2).length := (List.length_map _ _).symm
  have h2 : (keysOf c2).toFinset.card = (keysOf c2).length :=
    List.toFinset_card_of_nodup hnodup
  have h3 : (keysOf c2).toFinset = namesOf env S := by
    ext nm
    rw [List.mem_toFinset]
    exact hiff nm
  have h4 : (namesOf env S).card = S.card :=
    Finset.card_image_of_injOn (fun j hj k hk h => hinj j hj k hk h)
  have h5 : (S.erase i).card + 1 = S.card := Finset.card_erase_add_one hi
  rw [h1, ← h2, h3, h4, ← h5]

end StarliteMsgspec

namespace StarliteMsgspec

/-- Witness for C1: the spec's `Owner`/`Pet` scenario — `Owner` (id 0)
references `Pet` (id 1) through a `list` field; converting `Owner` from an
empty cache yields a cache of exactly the two names. -/
theorem claim_C1_witness :
    ∃ m c2, to_pydantic_model_class
        (fun j => if j = 0 then
          ⟨"Owner", [⟨"name", .plain "str", .nodefault, .nodefault, none⟩,
                     ⟨"pets", .generic .clist [.structT 1], .nodefault, .nodefault, none⟩]⟩
        else ⟨"Pet", [⟨"name", .plain "str", .nodefault, .nodefault, none⟩]⟩)
        3 0 [] = (.ok m, c2) ∧
      (keysOf c2).Nodup ∧
      (∀ nm, nm ∈ keysOf c2 ↔ nm ∈ namesOf
        (fun j => if j = 0 then
          ⟨"Owner", [⟨"name", .plain "str", .nodefault, .nodefault, none⟩,
                     ⟨"pets", .generic .clist [.structT 1], .nodefault, .nodefault, none⟩]⟩
        else ⟨"Pet", [⟨"name", .plain "str", .nodefault, .nodefault, none⟩]⟩)
        ({0, 1} : Finset StructId)) ∧
      c2.length = (({0, 1} : Finset StructId).erase 0).card + 1 := by
  apply claim_C1_nested_discovery
  · simp
  · intro j hj k hk
    rw [Finset.mem_insert, Finset.mem_singleton] at hj
    rcases hj with rfl | rfl
    · simp [structRefs, tyRefs, tyRefsList] at hk
      simp [hk]
    · simp [structRefs, tyRefs, tyRefsList] at hk
  · intro j hj
    rw [Finset.mem_insert, Finset.mem_singleton] at hj
    rcases hj with rfl | rfl
    · exact Relation.ReflTransGen.refl
    · refine Relation.ReflTransGen.single ?_
      simp [structRefs, tyRefs, tyRefsList]
  · intro j hj k hk
    rw [Finset.mem_insert, Finset.mem_singleton] at hj
    rw [Finset.mem_insert, Finset.mem_singleton] at hk
    rcases hj with rfl | rfl <;> rcases hk with rfl | rfl <;> simp
  · decide

end StarliteMsgspec

namespace StarliteMsgspec

/-- C3.  Forward conversion terminates on every finite struct type graph:
with fuel exceeding the number of yet-uncached names of the (finite, closed)
reachable set, the recursion succeeds instead of running out of fuel; the
recursion is bounded because `handle_nested_stuct` never appends a struct
whose name equals the parent's name or is already cached; and in particular a
struct class whose single field is an ordered sequence of itself converts
successfully, producing a class whose field's element type is the forward
reference resolving (against the resulting cache) to that same generated
class. -/
theorem claim_C3_self_reference_termination :
    (∀ (env : Env) (S : Finset StructId),
      (∀ j ∈ S, ∀ k ∈ structRefs env j, k ∈ S) →
      ∀ (fuel : Nat) (i : StructId) (c : Cache), i ∈ S →
        ((namesOf env S) \ (keysOf c).toFinset).card < fuel →
        ∃ m c2, to_pydantic_model_class env fuel i c = (.ok m, c2)) ∧
    (∀ (env : Env) (cache : Cache) (s : StructId) (p : String) (ns : List StructId),
      ((env s).sname = p ∨ containsName cache (env s).sname = true) →
      handle_nested_stuct env cache s p ns = ns) ∧
    (∀ (env : Env) (i : StructId) (fld : MField) (fuel : Nat), 0 < fuel →
      (env i).sfields = [fld] → fld.ftype = .generic .clist [.structT i] →
      ∃ m, to_pydantic_model_class env fuel i [] = (.ok m, [((env i).sname, m)]) ∧
        m = create_model (env i).sname
          [(fld.fname, .applyC .rlist [.ref (env i).sname], generate_field_info fld)] ∧
        resolve_forward_ref [((env i).sname, m)] (env i).sname = some m) := by
  refine ⟨?_, ?_, ?_⟩
  · intro env S hcl fuel i c hi hcard
    obtain ⟨m, c2, heq, _, _⟩ := to_pydantic_main env S hcl fuel i c hi hcard
    exact ⟨m, c2, heq⟩
  · intro env cache s p ns h
    rcases h with h | h
    · simp [handle_nested_stuct, h]
    · simp [handle_nested_stuct, h]
  · intro env i fld fuel hf hfs hft
    obtain ⟨g, rfl⟩ : ∃ g, fuel = g + 1 := ⟨fuel - 1, by omega⟩
    obtain ⟨bs, hfa, hgeq⟩ :=
      (get_complex_type_spec env [] (env i).sname (.generic .clist [.structT i])).1
        .clist [.structT i] rfl []
    have hbs : bs = [.ref (env i).sname] := by
      cases hfa with
      | cons hr htl =>
        cases htl
        cases hr with
        | structCase => rfl
        | leafCase h1 h2 h3 => exact absurd rfl (h3 i)
    subst hbs
    have hfilter : (tyRefsList [PyType.structT i]).filter
        (nestPred env [] (env i).sname) = [] := by
      simp [tyRefsList, tyRefs, nestPred]
    rw [hfilter, List.append_nil] at hgeq
    have hbf : build_fields env [] [fld] (env i).sname [] =
        (.ok [(fld.fname, .applyC .rlist [.ref (env i).sname],
          generate_field_info fld)], []) := by
      simp only [build_fields, hft, is_complex_clist, if_true, hgeq, TYPE_CONSTRUCTOR_MAP,
        Option.elim]
    have hlk : List.lookup (env i).sname ([] : Cache) = none := rfl
    refine ⟨create_model (env i).sname
      [(fld.fname, .applyC .rlist [.ref (env i).sname], generate_field_info fld)],
      ?_, rfl, ?_⟩
    · rw [to_pydantic_model_class]
      rw [hfs]
      simp only [hlk, hbf, convert_nested, List.nil_append]
      rw [List.lookup]
      simp
    · simp [resolve_forward_ref, List.lookup]

end StarliteMsgspec

namespace StarliteMsgspec

/-- Witness for C3: the struct `A {pets: list[A]}` — a field typed as an
ordered sequence of the struct itself.  Conversion succeeds with fuel 1, the
skip rule fires on the self-reference, and the field's element forward
reference resolves to the generated class itself. -/
theorem claim_C3_witness :
    (∃ m c2, to_pydantic_model_class
        (fun _ => ⟨"A", [⟨"pets", .generic .clist [.structT 0],
          .nodefault, .nodefault, none⟩]⟩) 2 0 [] = (.ok m, c2)) ∧
    handle_nested_stuct
        (fun _ => ⟨"A", [⟨"pets", .generic .clist [.structT 0],
          .nodefault, .nodefault, none⟩]⟩) [] 0 "A" [] = [] ∧
    (∃ m, to_pydantic_model_class
        (fun _ => ⟨"A", [⟨"pets", .generic .clist [.structT 0],
          .nodefault, .nodefault, none⟩]⟩) 1 0 [] = (.ok m, [("A", m)]) ∧
      m = create_model "A" [("pets", .applyC .rlist [.ref "A"],
        generate_field_info ⟨"pets", .generic .clist [.structT 0],
          .nodefault, .nodefault, none⟩)] ∧
      resolve_forward_ref [("A", m)] "A" = some m) := by
  refine ⟨?_, ?_, ?_⟩
  · apply claim_C3_self_reference_termination.1 _ ({0} : Finset StructId)
    · intro j hj k hk
      simp [structRefs, tyRefs, tyRefsList] at hk
      simp [hk]
    · simp
    · have h1 : (keysOf ([] : Cache)).toFinset = ∅ := rfl
      rw [h1, Finset.sdiff_empty]
      simp [namesOf]
  · exact claim_C3_self_reference_termination.2.1 _ [] 0 "A" [] (Or.inl rfl)
  · exact claim_C3_self_reference_termination.2.2 _ 0
      ⟨"pets", .generic .clist [.structT 0], .nodefault, .nodefault, none⟩ 1
      (by decide) rfl rfl

end StarliteMsgspec
